import Mathlib

/-!
# Accumulators and instrument collectors of the metrics SDK view state

A shallow embedding of `lightstep/sdk/metric/internal/viewstate/accumulators.go`
and `collectors.go`.

Conventions of the embedding:

* a `*Storage` is modelled by the value it points to; an operation that writes
  through a pointer returns the new value of the pointee;
* a Go `map[attribute.Set]*Storage` is an association list of entries, and a
  `range` loop over it visits the entries in list order (Go leaves the order
  unspecified; the theorems that speak about one series assume distinct keys);
* the locks are not modelled: every operation below runs to completion alone.
-/

namespace viewstate

/-! ## Collaborators that live outside the two source files -/

/-- Modelled from the spec: the aggregation algebra `aggregator.Methods[N, Storage]`
(section 3 of the spec), absent from the sources.  Each field takes the values
behind its pointer arguments and returns the new value of what it writes:
`Update storage value` the new storage, `Merge dst src` the new `dst` (src is
folded into dst), `Reset storage` the new storage, `Move src dst` the new
`(src, dst)`, `SubtractSwap a b` the new `b` (the code comment reads
"This does *pval := *storage - *pval"). -/
structure Methods (N S A : Type) where
  Update : S → N → S
  Merge : S → S → S
  Reset : S → S
  Move : S → S → S × S
  SubtractSwap : S → S → S
  HasChange : S → Bool
  ToAggregation : S → A

/-- Modelled from the spec: the integer sum algebra ("a running sum"), storage
and aggregation both being the running total, identity `0`. -/
def intSum : Methods Int Int Int where
  Update := fun storage value => storage + value
  Merge := fun dst src => dst + src
  Reset := fun _ => 0
  Move := fun src _ => (0, src)
  SubtractSwap := fun a b => a - b
  HasChange := fun storage => decide (storage ≠ 0)
  ToAggregation := fun storage => storage

/-- The two temporalities of `aggregation.Temporality` used by the collectors. -/
inductive Temporality where
  | CumulativeTemporality
  | DeltaTemporality
  deriving DecidableEq, Repr

/-- Modelled from the spec: the instrument kind of `sdkinstrument.Descriptor`,
of which the collectors only ask whether it is temporal. -/
structure Kind where
  temporal : Bool
  deriving DecidableEq, Repr

/-- The method `Kind.HasTemporality` of the descriptor's kind. -/
def Kind.HasTemporality (k : Kind) : Bool := k.temporal

/-- Modelled from the spec: the instrument descriptor. -/
structure Descriptor where
  Name : String
  Kind : Kind
  deriving DecidableEq, Repr

/-- The collection sequence `data.Sequence`: process start, end of the previous
collection, now (timestamps as natural numbers). -/
structure Sequence where
  Start : Nat
  Last : Nat
  Now : Nat
  deriving DecidableEq, Repr

/-- One exported point, `data.Point`. -/
structure Point (K A : Type) where
  Attributes : K
  Aggregation : A
  Temporality : Temporality
  Start : Nat
  End : Nat
  deriving DecidableEq, Repr

/-- One instrument record of the output buffer, `data.Instrument`. -/
structure Instrument (K A : Type) where
  Descriptor : Descriptor
  Points : List (Point K A)
  deriving DecidableEq, Repr

/-- The map read `m[k]` with its presence flag. -/
def tableGet {K S : Type} [DecidableEq K] : List (K × S) → K → Option S
  | [], _ => none
  | (k0, s) :: rest, k => if k0 = k then some s else tableGet rest k

/-- A write through the pointer stored under `k`: the entry of `k` gets the
value `v`; a table without `k` is left as it is. -/
def tableSet {K S : Type} [DecidableEq K] : List (K × S) → K → S → List (K × S)
  | [], _, _ => []
  | (k0, s) :: rest, k, v =>
    if k0 = k then (k0, v) :: rest else (k0, s) :: tableSet rest k v

/-- The fields of `instrumentBase` the collectors use: the descriptor, the
storage allocator and the series table `data`. -/
structure instrumentBase (K S : Type) where
  desc : Descriptor
  newStorage : S
  data : List (K × S)

/-- Modelled from the spec: `instrumentBase.storageFinder(kvs)`, the resolver of
the slot of a series in the shared table; the entry is created lazily with a
fresh storage.  Returns the table and the value in the slot. -/
def storageFinder {K S : Type} [DecidableEq K] (p : instrumentBase K S) (kvs : K) :
    instrumentBase K S × S :=
  match tableGet p.data kvs with
  | some storage => (p, storage)
  | none => ({ p with data := p.data ++ [(kvs, p.newStorage)] }, p.newStorage)

/-- Modelled from the spec: `instrumentBase.appendInstrument`, the new record of
this instrument at the end of the output buffer, without points yet. -/
def appendInstrument {K A : Type} (desc : Descriptor) : Instrument K A :=
  { Descriptor := desc, Points := [] }

/-- Modelled from the spec: `instrumentBase.appendPoint`, one more point at
the end of the record. -/
def appendPoint {K A : Type} (ioutput : Instrument K A) (set : K) (agg : A)
    (tempo : Temporality) (start endTime : Nat) : Instrument K A :=
  { ioutput with Points := ioutput.Points ++
      [{ Attributes := set, Aggregation := agg, Temporality := tempo,
         Start := start, End := endTime }] }

/-- Modelled from the spec: `instrumentBase.appendOrReusePoint`.  The argument
lists what the spare capacity of the record holds: for each slot, the storage
of a previously emitted point when there is one.  Returns the storage handed
back for the next point (`none` for nil) and the remaining slots. -/
def appendOrReusePoint {S : Type} : List (Option S) → Option S × List (Option S)
  | [] => (none, [])
  | slot :: rest => (slot, rest)

/-! ## accumulators.go -/

/-- The storages of a `syncAccumulator`; its `findStorage` is the resolver of
the series `kvs` in the owning instrument, passed to `SnapshotAndProcess`. -/
structure syncAccumulator (S : Type) where
  current : S
  snapshot : S
  deriving DecidableEq, Repr

/-- `compiledSyncBase.NewAccumulator`: both storages initialised. -/
def compiledSyncBase.NewAccumulator {K S : Type} (p : instrumentBase K S) :
    syncAccumulator S :=
  { current := p.newStorage, snapshot := p.newStorage }

/-- `syncAccumulator.Update`: `methods.Update(&acc.current, number)`. -/
def syncAccumulator.Update {N S A : Type} (m : Methods N S A)
    (acc : syncAccumulator S) (number : N) : syncAccumulator S :=
  { acc with current := m.Update acc.current number }

/-- `syncAccumulator.SnapshotAndProcess`:
`methods.Move(&acc.current, &acc.snapshot)` and then
`methods.Merge(&acc.snapshot, acc.findStorage())`.  The first argument of
`Merge` is the one written, so the slot in the shared table keeps its value. -/
def syncAccumulator.SnapshotAndProcess {N S A K : Type} [DecidableEq K]
    (m : Methods N S A) (kvs : K) (acc : syncAccumulator S) (p : instrumentBase K S) :
    syncAccumulator S × instrumentBase K S :=
  let moved := m.Move acc.current acc.snapshot
  let found := storageFinder p kvs
  ({ current := moved.1, snapshot := m.Merge moved.2 found.2 }, found.1)

/-- The value of an `asyncAccumulator`: the last observed number. -/
structure asyncAccumulator (N : Type) where
  current : N
  deriving DecidableEq, Repr

/-- `asyncAccumulator.Update`: `acc.current = number`. -/
def asyncAccumulator.Update {N : Type} (_acc : asyncAccumulator N) (number : N) :
    asyncAccumulator N :=
  { current := number }

/-- `asyncAccumulator.SnapshotAndProcess`:
`methods.Update(acc.findStorage(), acc.current)`, a write to the shared slot. -/
def asyncAccumulator.SnapshotAndProcess {N S A K : Type} [DecidableEq K]
    (m : Methods N S A) (kvs : K) (acc : asyncAccumulator N) (p : instrumentBase K S) :
    asyncAccumulator N × instrumentBase K S :=
  let found := storageFinder p kvs
  (acc, { found.1 with data := tableSet found.1.data kvs (m.Update found.2 acc.current) })

/-! ## collectors.go -/

/-- The loop of `statefulSyncInstrument.Collect`. -/
def statefulSyncInstrument.loop {N S A K : Type} (m : Methods N S A) (seq : Sequence) :
    List (K × S) → Instrument K A → Instrument K A
  | [], ioutput => ioutput
  | (set, storage) :: rest, ioutput =>
    statefulSyncInstrument.loop m seq rest
      (appendPoint ioutput set (m.ToAggregation storage)
        Temporality.CumulativeTemporality seq.Start seq.Now)

/-- `statefulSyncInstrument.Collect`: the instrument afterwards and the output
buffer afterwards. -/
def statefulSyncInstrument.Collect {N S A K : Type} (m : Methods N S A)
    (p : instrumentBase K S) (seq : Sequence) (output : List (Instrument K A)) :
    instrumentBase K S × List (Instrument K A) :=
  (p, output ++ [statefulSyncInstrument.loop m seq p.data (appendInstrument p.desc)])

/-- The loop of `statelessSyncInstrument.Collect` over the entries of the
table: an entry without change is deleted, any other is emitted and reset in
place.  Returns the entries that remain and the record. -/
def statelessSyncInstrument.loop {N S A K : Type} (m : Methods N S A) (newStorage : S)
    (seq : Sequence) :
    List (K × S) → Instrument K A → List (Option S) → List (K × S) × Instrument K A
  | [], ioutput, _ => ([], ioutput)
  | (set, storage) :: rest, ioutput, spare =>
    if !m.HasChange storage then
      statelessSyncInstrument.loop m newStorage seq rest ioutput spare
    else
      let reused := appendOrReusePoint spare
      let existing : S :=
        match reused.1 with
        | none => newStorage
        | some e => m.Reset e
      let merged := m.Merge existing storage
      let ioutput1 := appendPoint ioutput set (m.ToAggregation merged)
        Temporality.DeltaTemporality seq.Last seq.Now
      let after := statelessSyncInstrument.loop m newStorage seq rest ioutput1 reused.2
      ((set, m.Reset storage) :: after.1, after.2)

/-- `statelessSyncInstrument.Collect`; `spare` is what the spare capacity of
the new record holds (see `appendOrReusePoint`). -/
def statelessSyncInstrument.Collect {N S A K : Type} (m : Methods N S A)
    (p : instrumentBase K S) (seq : Sequence) (output : List (Instrument K A))
    (spare : List (Option S)) : instrumentBase K S × List (Instrument K A) :=
  let done := statelessSyncInstrument.loop m p.newStorage seq p.data
    (appendInstrument p.desc) spare
  ({ p with data := done.1 }, output ++ [done.2])

/-- The loop of `statelessAsyncInstrument.Collect`. -/
def statelessAsyncInstrument.loop {N S A K : Type} (m : Methods N S A) (seq : Sequence) :
    List (K × S) → Instrument K A → Instrument K A
  | [], ioutput => ioutput
  | (set, storage) :: rest, ioutput =>
    statelessAsyncInstrument.loop m seq rest
      (appendPoint ioutput set (m.ToAggregation storage)
        Temporality.CumulativeTemporality seq.Start seq.Now)

/-- `statelessAsyncInstrument.Collect`: the points, then a fresh table. -/
def statelessAsyncInstrument.Collect {N S A K : Type} (m : Methods N S A)
    (p : instrumentBase K S) (seq : Sequence) (output : List (Instrument K A)) :
    instrumentBase K S × List (Instrument K A) :=
  ({ p with data := [] },
   output ++ [statelessAsyncInstrument.loop m seq p.data (appendInstrument p.desc)])

/-- A `statefulAsyncInstrument`: the base and the prior table. -/
structure statefulAsyncInstrument (K S : Type) where
  base : instrumentBase K S
  prior : List (K × S)

/-- The loop of `statefulAsyncInstrument.Collect` over the entries of the
current table; `SubtractSwap` writes the prior entry of the series.  Returns
the prior table as the loop leaves it and the record. -/
def statefulAsyncInstrument.loop {N S A K : Type} [DecidableEq K] (m : Methods N S A)
    (desc : Descriptor) (seq : Sequence) :
    List (K × S) → List (K × S) → Instrument K A → List (K × S) × Instrument K A
  | [], prior, ioutput => (prior, ioutput)
  | (set, storage) :: rest, prior, ioutput =>
    match tableGet prior set with
    | some pval =>
      let pval1 := m.SubtractSwap storage pval
      let prior1 := tableSet prior set pval1
      if !m.HasChange pval1 then
        statefulAsyncInstrument.loop m desc seq rest prior1 ioutput
      else
        let storage1 := if desc.Kind.HasTemporality then pval1 else storage
        statefulAsyncInstrument.loop m desc seq rest prior1
          (appendPoint ioutput set (m.ToAggregation storage1)
            Temporality.DeltaTemporality seq.Last seq.Now)
    | none =>
      statefulAsyncInstrument.loop m desc seq rest prior
        (appendPoint ioutput set (m.ToAggregation storage)
          Temporality.DeltaTemporality seq.Last seq.Now)

/-- `statefulAsyncInstrument.Collect`: the points, then `p.prior = p.data` and
a fresh current table. -/
def statefulAsyncInstrument.Collect {N S A K : Type} [DecidableEq K] (m : Methods N S A)
    (p : statefulAsyncInstrument K S) (seq : Sequence) (output : List (Instrument K A)) :
    statefulAsyncInstrument K S × List (Instrument K A) :=
  let done := statefulAsyncInstrument.loop m p.base.desc seq p.base.data p.prior
    (appendInstrument p.base.desc)
  ({ base := { p.base with data := [] }, prior := p.base.data }, output ++ [done.2])

/-! ## Collection rounds -/

/-- The points of the records that a call appended to the output buffer
`before`, giving `after`. -/
def collectedPoints {K A : Type} (before after : List (Instrument K A)) : List (Point K A) :=
  (after.drop before.length).flatMap (fun r => r.Points)

/-- The points of a list that belong to the series `kvs`. -/
def pointsOf {K A : Type} [DecidableEq K] (kvs : K) (points : List (Point K A)) :
    List (Point K A) :=
  points.filter (fun pt => decide (pt.Attributes = kvs))

/-- One collection round on one series: the collection sequence, the values
passed to `Update` since the previous round, and what the spare capacity of
the output record holds (used by the delta collector only). -/
structure Round (N S : Type) where
  seq : Sequence
  values : List N
  spare : List (Option S)

/-- A list of `syncAccumulator.Update` calls, in order. -/
def syncAccumulator.Updates {N S A : Type} (m : Methods N S A)
    (acc : syncAccumulator S) (values : List N) : syncAccumulator S :=
  values.foldl (syncAccumulator.Update m) acc

/-- A round on a cumulative synchronous instrument: the `Update` calls, then
`SnapshotAndProcess`, then `statefulSyncInstrument.Collect` into an empty
buffer.  Returns the state afterwards and the points emitted. -/
def statefulSyncRound {N S A K : Type} [DecidableEq K] (m : Methods N S A) (kvs : K)
    (st : syncAccumulator S × instrumentBase K S) (r : Round N S) :
    (syncAccumulator S × instrumentBase K S) × List (Point K A) :=
  let acc1 := syncAccumulator.Updates m st.1 r.values
  let snap := syncAccumulator.SnapshotAndProcess m kvs acc1 st.2
  let coll := statefulSyncInstrument.Collect m snap.2 r.seq []
  ((snap.1, coll.1), collectedPoints [] coll.2)

/-- A round on a delta synchronous instrument: the `Update` calls, then
`SnapshotAndProcess`, then `statelessSyncInstrument.Collect` into an empty
buffer.  Returns the state afterwards and the points emitted. -/
def statelessSyncRound {N S A K : Type} [DecidableEq K] (m : Methods N S A) (kvs : K)
    (st : syncAccumulator S × instrumentBase K S) (r : Round N S) :
    (syncAccumulator S × instrumentBase K S) × List (Point K A) :=
  let acc1 := syncAccumulator.Updates m st.1 r.values
  let snap := syncAccumulator.SnapshotAndProcess m kvs acc1 st.2
  let coll := statelessSyncInstrument.Collect m snap.2 r.seq [] r.spare
  ((snap.1, coll.1), collectedPoints [] coll.2)

/-- Runs the rounds in order and lists what each one emitted. -/
def runRounds {St R O : Type} (round : St → R → St × O) : St → List R → List O
  | _, [] => []
  | st, r :: rest => (round st r).2 :: runRounds round (round st r).1 rest

/-- A synchronous instrument on the integer sum algebra right after its
creation, with the accumulator of one series: an empty series table and
storages at the identity. -/
def newSyncInstrument {K : Type} (desc : Descriptor) :
    syncAccumulator Int × instrumentBase K Int :=
  (compiledSyncBase.NewAccumulator ({ desc := desc, newStorage := 0, data := [] } :
      instrumentBase K Int),
   { desc := desc, newStorage := 0, data := [] })

/-- The aggregations of a list of points. -/
def pointValues {K A : Type} (points : List (Point K A)) : List A :=
  points.map (fun pt => pt.Aggregation)

/-- A descriptor used by the concrete evaluations. -/
def counterDesc : Descriptor := { Name := "requests", Kind := { temporal := true } }

/-- A descriptor of a kind without temporality, used by the concrete evaluations. -/
def gaugeDesc : Descriptor := { Name := "temperature", Kind := { temporal := false } }

/-! ## Asynchronous cycles and the fan-out accumulator -/

/-- `compiledAsyncBase.NewAccumulator`: `ac.current = 0`.  (The source also
initialises a storage named `snapshot`, which no method of the accumulator reads.) -/
def compiledAsyncBase.NewAccumulator {N : Type} [Zero N] : asyncAccumulator N :=
  { current := 0 }

/-- A list of `asyncAccumulator.Update` calls, in order. -/
def asyncAccumulator.Updates {N : Type} (acc : asyncAccumulator N) (values : List N) :
    asyncAccumulator N :=
  values.foldl asyncAccumulator.Update acc

/-- The effect of `syncAccumulator.Update` on everything the accumulator can
reach, itself and (through `findStorage`) the owning instrument: the method
body only writes `acc.current`. -/
def syncAccumulator.UpdateStep {N S A K : Type} (m : Methods N S A)
    (st : syncAccumulator S × instrumentBase K S) (number : N) :
    syncAccumulator S × instrumentBase K S :=
  (syncAccumulator.Update m st.1 number, st.2)

/-- The effect of `asyncAccumulator.Update` on everything the accumulator can
reach: the method body only writes `acc.current`. -/
def asyncAccumulator.UpdateStep {N S K : Type}
    (st : asyncAccumulator N × instrumentBase K S) (number : N) :
    asyncAccumulator N × instrumentBase K S :=
  (asyncAccumulator.Update st.1 number, st.2)

/-- One cycle of a delta asynchronous instrument on one series: the collection
sequence and the reading the callback reports in this cycle, if it reports. -/
structure AsyncRound (N : Type) where
  seq : Sequence
  reading : Option N

/-- A cycle on a delta asynchronous instrument: when the series is reported,
`Update` with the reading and `SnapshotAndProcess`; then
`statefulAsyncInstrument.Collect` into an empty buffer.  Returns the state
afterwards and the points emitted. -/
def statefulAsyncRound {N S A K : Type} [DecidableEq K] (m : Methods N S A) (kvs : K)
    (st : asyncAccumulator N × statefulAsyncInstrument K S) (r : AsyncRound N) :
    (asyncAccumulator N × statefulAsyncInstrument K S) × List (Point K A) :=
  match r.reading with
  | some value =>
    let acc1 := asyncAccumulator.Update st.1 value
    let snap := asyncAccumulator.SnapshotAndProcess m kvs acc1 st.2.base
    let coll := statefulAsyncInstrument.Collect m { st.2 with base := snap.2 } r.seq []
    ((snap.1, coll.1), collectedPoints [] coll.2)
  | none =>
    let coll := statefulAsyncInstrument.Collect m st.2 r.seq []
    ((st.1, coll.1), collectedPoints [] coll.2)

/-- A delta asynchronous instrument on the integer sum algebra right after its
creation, with the accumulator of one series: empty current and prior tables. -/
def newAsyncInstrument {K : Type} (desc : Descriptor) :
    asyncAccumulator Int × statefulAsyncInstrument K Int :=
  (compiledAsyncBase.NewAccumulator,
   { base := { desc := desc, newStorage := 0, data := [] }, prior := [] })

/-- Modelled from the spec: a value of the `Accumulator` interface, whose
declaration is absent from the sources: the state its methods work on (the
accumulator and the storage it resolves to), its `SnapshotAndProcess` method
and, when its dynamic type implements `Updater[N]`, its `Update` method. -/
structure Accumulator (N St : Type) where
  state : St
  snapshotAndProcess : St → St
  updater : Option (St → N → St)

/-- The call `coll.SnapshotAndProcess()` on one child. -/
def Accumulator.SnapshotAndProcess {N St : Type} (coll : Accumulator N St) :
    Accumulator N St :=
  { coll with state := coll.snapshotAndProcess coll.state }

/-- The call `coll.(Updater[N]).Update(value)` on one child: the type
assertion fails (`none`, a run-time panic) when the child has no `Update`. -/
def Accumulator.Update {N St : Type} (coll : Accumulator N St) (value : N) :
    Option (Accumulator N St) :=
  match coll.updater with
  | none => none
  | some upd => some { coll with state := upd coll.state value }

/-- `multiAccumulator.SnapshotAndProcess`: the loop over the children. -/
def multiAccumulator.SnapshotAndProcess {N St : Type} :
    List (Accumulator N St) → List (Accumulator N St)
  | [] => []
  | coll :: rest => coll.SnapshotAndProcess :: multiAccumulator.SnapshotAndProcess rest

/-- `multiAccumulator.Update`: the loop over the children; `none` when a type
assertion panics. -/
def multiAccumulator.Update {N St : Type} :
    List (Accumulator N St) → N → Option (List (Accumulator N St))
  | [], _ => some []
  | coll :: rest, value =>
    match coll.Update value with
    | none => none
    | some coll1 =>
      match multiAccumulator.Update rest value with
      | none => none
      | some rest1 => some (coll1 :: rest1)

/-- A `syncAccumulator` of the series `kvs` with its instrument, as a value of
the `Accumulator` interface. -/
def syncAccumulator.toAccumulator {N S A K : Type} [DecidableEq K] (m : Methods N S A)
    (kvs : K) (st : syncAccumulator S × instrumentBase K S) :
    Accumulator N (syncAccumulator S × instrumentBase K S) :=
  { state := st,
    snapshotAndProcess := fun st1 => syncAccumulator.SnapshotAndProcess m kvs st1.1 st1.2,
    updater := some (syncAccumulator.UpdateStep m) }

/-- An accumulator whose type has `SnapshotAndProcess` only, as a value of the
`Accumulator` interface. -/
def passThroughAccumulator {N St : Type} (st : St) : Accumulator N St :=
  { state := st, snapshotAndProcess := fun st1 => st1, updater := none }

/-! ## Theorems -/

/-- C1 (evaluation of the code): after `Update(3)`, `Update(4)` the live value
is 7; `SnapshotAndProcess` on a series whose shared storage is at 0 leaves the
shared storage at 0 and puts 7 in the accumulator's own `snapshot`: the
shared storage was folded into the snapshot, not the snapshot into it. -/
theorem syncAccumulator_snapshot_leaves_shared_storage :
    (syncAccumulator.Updates intSum (newSyncInstrument (K := Nat) counterDesc).1 [3, 4]).current = 7
    ∧ tableGet (syncAccumulator.SnapshotAndProcess intSum (1 : Nat)
        (syncAccumulator.Updates intSum (newSyncInstrument (K := Nat) counterDesc).1 [3, 4])
        (newSyncInstrument counterDesc).2).2.data 1 = some 0
    ∧ (syncAccumulator.SnapshotAndProcess intSum (1 : Nat)
        (syncAccumulator.Updates intSum (newSyncInstrument (K := Nat) counterDesc).1 [3, 4])
        (newSyncInstrument counterDesc).2).1 = { current := 0, snapshot := 7 } := by
  decide

/-- C2 (evaluation of the code): two rounds on a cumulative synchronous
instrument, `Update(3)`, `Update(4)` in the first and `Update(2)` in the second;
the point emitted by each `Collect` carries 0, where the values updated since
creation sum to 7 and then 9. -/
theorem statefulSync_rounds_emit_zero :
    (runRounds (statefulSyncRound intSum (1 : Nat)) (newSyncInstrument counterDesc)
      [{ seq := ⟨0, 0, 10⟩, values := [3, 4], spare := [] },
       { seq := ⟨0, 10, 20⟩, values := [2], spare := [] }]).map pointValues
    = [[0], [0]] := by
  decide

/-! ### Rounds on the integer sum algebra -/

/-- A round of the delta collector on an empty table: the slot is created at
the identity, the snapshot is not folded into it, so `Collect` finds no change,
emits nothing and deletes the entry again. -/
theorem statelessSyncRound_empty {K : Type} [DecidableEq K] (kvs : K) (desc : Descriptor)
    (st : syncAccumulator Int × instrumentBase K Int) (r : Round Int Int)
    (hst : st.2 = { desc := desc, newStorage := 0, data := [] }) :
    (statelessSyncRound intSum kvs st r).1.2 = { desc := desc, newStorage := 0, data := [] }
    ∧ (statelessSyncRound intSum kvs st r).2 = [] := by
  obtain ⟨acc, p⟩ := st
  simp only at hst
  subst hst
  simp [statelessSyncRound, syncAccumulator.SnapshotAndProcess, storageFinder, tableGet,
    statelessSyncInstrument.Collect, statelessSyncInstrument.loop, intSum, collectedPoints,
    appendInstrument]

theorem statelessSync_run_empty {K : Type} [DecidableEq K] (kvs : K) (desc : Descriptor)
    (rounds : List (Round Int Int)) (st : syncAccumulator Int × instrumentBase K Int)
    (hst : st.2 = { desc := desc, newStorage := 0, data := [] }) :
    (runRounds (statelessSyncRound intSum kvs) st rounds).flatMap pointValues = [] := by
  induction rounds generalizing st with
  | nil => rfl
  | cons r rest ih =>
    have h1 := statelessSyncRound_empty kvs desc st r hst
    simp only [runRounds, List.flatMap_cons, h1.2, ih _ h1.1]
    rfl

/-- A round of the cumulative collector on a table that holds at most the
series at the identity: the slot stays at the identity and `Collect` emits it. -/
theorem statefulSyncRound_zero {K : Type} [DecidableEq K] (kvs : K) (desc : Descriptor)
    (st : syncAccumulator Int × instrumentBase K Int) (r : Round Int Int)
    (hst : st.2 = { desc := desc, newStorage := 0, data := [] }
      ∨ st.2 = { desc := desc, newStorage := 0, data := [(kvs, 0)] }) :
    (statefulSyncRound intSum kvs st r).1.2
        = { desc := desc, newStorage := 0, data := [(kvs, 0)] }
    ∧ pointValues (statefulSyncRound intSum kvs st r).2 = [0] := by
  obtain ⟨acc, p⟩ := st
  simp only at hst
  rcases hst with hst | hst <;> subst hst <;>
  simp [statefulSyncRound, syncAccumulator.SnapshotAndProcess, storageFinder, tableGet,
    statefulSyncInstrument.Collect, statefulSyncInstrument.loop, intSum, collectedPoints,
    appendInstrument, appendPoint, pointValues]

theorem statefulSync_run_last {K : Type} [DecidableEq K] (kvs : K) (desc : Descriptor)
    (rounds : List (Round Int Int)) (hne : rounds ≠ [])
    (st : syncAccumulator Int × instrumentBase K Int)
    (hst : st.2 = { desc := desc, newStorage := 0, data := [] }
      ∨ st.2 = { desc := desc, newStorage := 0, data := [(kvs, 0)] }) :
    ((runRounds (statefulSyncRound intSum kvs) st rounds).getLast?).map pointValues
      = some [0] := by
  induction rounds generalizing st with
  | nil => exact absurd rfl hne
  | cons r rest ih =>
    have h1 := statefulSyncRound_zero kvs desc st r hst
    cases rest with
    | nil => simp [runRounds, h1.2]
    | cons r2 rest2 =>
      have h2 := ih (by simp) _ (Or.inr h1.1)
      rw [runRounds] at h2 ⊢
      rw [runRounds, List.getLast?_cons_cons]
      exact h2

theorem statefulSync_loop_eq {N S A K : Type} (m : Methods N S A) (seq : Sequence)
    (l : List (K × S)) (ioutput : Instrument K A) :
    statefulSyncInstrument.loop m seq l ioutput
      = { ioutput with Points := ioutput.Points ++ l.map (fun e =>
          { Attributes := e.1, Aggregation := m.ToAggregation e.2,
            Temporality := Temporality.CumulativeTemporality,
            Start := seq.Start, End := seq.Now }) } := by
  induction l generalizing ioutput with
  | nil => simp [statefulSyncInstrument.loop]
  | cons e rest ih =>
    obtain ⟨set, storage⟩ := e
    simp [statefulSyncInstrument.loop, ih, appendPoint]

theorem statelessAsync_loop_eq {N S A K : Type} (m : Methods N S A) (seq : Sequence)
    (l : List (K × S)) (ioutput : Instrument K A) :
    statelessAsyncInstrument.loop m seq l ioutput
      = { ioutput with Points := ioutput.Points ++ l.map (fun e =>
          { Attributes := e.1, Aggregation := m.ToAggregation e.2,
            Temporality := Temporality.CumulativeTemporality,
            Start := seq.Start, End := seq.Now }) } := by
  induction l generalizing ioutput with
  | nil => simp [statelessAsyncInstrument.loop]
  | cons e rest ih =>
    obtain ⟨set, storage⟩ := e
    simp [statelessAsyncInstrument.loop, ih, appendPoint]

theorem collectedPoints_append_one {K A : Type} (output : List (Instrument K A))
    (r : Instrument K A) : collectedPoints output (output ++ [r]) = r.Points := by
  simp [collectedPoints]

/-- The entries the delta loop keeps: those with a change, reset. -/
theorem statelessSync_loop_data {N S A K : Type} (m : Methods N S A) (newStorage : S)
    (seq : Sequence) (l : List (K × S)) (ioutput : Instrument K A) (spare : List (Option S)) :
    (statelessSyncInstrument.loop m newStorage seq l ioutput spare).1
      = (l.filter (fun e => m.HasChange e.2)).map (fun e => (e.1, m.Reset e.2)) := by
  induction l generalizing ioutput spare with
  | nil => simp [statelessSyncInstrument.loop]
  | cons e rest ih =>
    obtain ⟨set, storage⟩ := e
    cases h : m.HasChange storage <;> simp [statelessSyncInstrument.loop, h, ih]

/-- The series of the points the delta loop emits: those with a change. -/
theorem statelessSync_loop_attributes {N S A K : Type} (m : Methods N S A)
    (newStorage : S) (seq : Sequence) (l : List (K × S)) (ioutput : Instrument K A)
    (spare : List (Option S)) :
    (statelessSyncInstrument.loop m newStorage seq l ioutput spare).2.Points.map
        (fun pt => pt.Attributes)
      = ioutput.Points.map (fun pt => pt.Attributes)
        ++ (l.filter (fun e => m.HasChange e.2)).map (fun e => e.1) := by
  induction l generalizing ioutput spare with
  | nil => simp [statelessSyncInstrument.loop]
  | cons e rest ih =>
    obtain ⟨set, storage⟩ := e
    cases h : m.HasChange storage <;> simp [statelessSyncInstrument.loop, h, ih, appendPoint]

/-- The points the delta loop emits, for an algebra in which merging into a
fresh or a reset storage gives the aggregation of what is merged. -/
theorem statelessSync_loop_points {N S A K : Type} (m : Methods N S A)
    (newStorage : S) (seq : Sequence)
    (hNew : ∀ x, m.ToAggregation (m.Merge newStorage x) = m.ToAggregation x)
    (hReset : ∀ e x, m.ToAggregation (m.Merge (m.Reset e) x) = m.ToAggregation x)
    (l : List (K × S)) (ioutput : Instrument K A) (spare : List (Option S)) :
    (statelessSyncInstrument.loop m newStorage seq l ioutput spare).2.Points
      = ioutput.Points ++ (l.filter (fun e => m.HasChange e.2)).map (fun e =>
          { Attributes := e.1, Aggregation := m.ToAggregation e.2,
            Temporality := Temporality.DeltaTemporality,
            Start := seq.Last, End := seq.Now }) := by
  induction l generalizing ioutput spare with
  | nil => simp [statelessSyncInstrument.loop]
  | cons e rest ih =>
    obtain ⟨set, storage⟩ := e
    cases h : m.HasChange storage
    · simp [statelessSyncInstrument.loop, h, ih]
    · cases spare with
      | nil => simp [statelessSyncInstrument.loop, h, ih, appendPoint, appendOrReusePoint, hNew]
      | cons slot more =>
        cases slot <;>
        simp [statelessSyncInstrument.loop, h, ih, appendPoint, appendOrReusePoint, hNew, hReset]

/-- In a table with distinct keys, the entries of a key are the one `tableGet` finds. -/
theorem filter_key_of_nodup {K S : Type} [DecidableEq K] (l : List (K × S)) (k : K) (s : S)
    (hnodup : (l.map (fun e => e.1)).Nodup) (hget : tableGet l k = some s) :
    l.filter (fun e => decide (e.1 = k)) = [(k, s)] := by
  induction l with
  | nil => simp [tableGet] at hget
  | cons e rest ih =>
    obtain ⟨k0, s0⟩ := e
    simp only [List.map_cons, List.nodup_cons] at hnodup
    by_cases hk : k0 = k
    · subst hk
      simp only [tableGet, if_true, Option.some.injEq] at hget
      subst hget
      have hrest : rest.filter (fun e => decide (e.1 = k0)) = [] := by
        rw [List.filter_eq_nil_iff]
        intro e he hek
        have : e.1 = k0 := by simpa using hek
        exact hnodup.1 (this ▸ List.mem_map_of_mem (fun e => e.1) he)
      simp [List.filter_cons, hrest]
    · simp only [tableGet, if_neg hk] at hget
      simp [List.filter_cons, hk, ih hnodup.2 hget]

/-- The entry of a series with a change after the delta loop: reset in place. -/
theorem tableGet_filter_reset {N S A K : Type} [DecidableEq K] (m : Methods N S A)
    (l : List (K × S)) (k : K) (s : S)
    (hget : tableGet l k = some s) (hchg : m.HasChange s = true) :
    tableGet ((l.filter (fun e => m.HasChange e.2)).map (fun e => (e.1, m.Reset e.2))) k
      = some (m.Reset s) := by
  induction l with
  | nil => simp [tableGet] at hget
  | cons e rest ih =>
    obtain ⟨k0, s0⟩ := e
    by_cases hk : k0 = k
    · subst hk
      simp only [tableGet, if_true, Option.some.injEq] at hget
      subst hget
      simp [List.filter_cons, hchg, tableGet]
    · simp only [tableGet, if_neg hk] at hget
      cases h0 : m.HasChange s0 <;> simp [List.filter_cons, h0, tableGet, hk, ih hget]

/-! ### Synchronous collectors -/

/-- C4: for every series table with distinct keys and every series `kvs` in it
whose storage `s` has a change, `statelessSyncInstrument.Collect` emits exactly
one point for `kvs`; its aggregation is that of `s`, its temporality is delta
and its window is `[seq.Last, seq.Now]`; afterwards the storage of `kvs` in the
table is `Reset s`, which has no change.  The algebra is assumed to satisfy its
contract: merging into a fresh or a reset storage gives the aggregation of
what is merged, and a reset storage has no change. -/
theorem statelessSync_collect_changed_series {N S A K : Type} [DecidableEq K]
    (m : Methods N S A) (p : instrumentBase K S) (seq : Sequence)
    (output : List (Instrument K A)) (spare : List (Option S)) (kvs : K) (s : S)
    (hNew : ∀ x, m.ToAggregation (m.Merge p.newStorage x) = m.ToAggregation x)
    (hReset : ∀ e x, m.ToAggregation (m.Merge (m.Reset e) x) = m.ToAggregation x)
    (hId : ∀ x, m.HasChange (m.Reset x) = false)
    (hnodup : (p.data.map (fun e => e.1)).Nodup)
    (hget : tableGet p.data kvs = some s) (hchg : m.HasChange s = true) :
    pointsOf kvs (collectedPoints output
        (statelessSyncInstrument.Collect m p seq output spare).2)
      = [{ Attributes := kvs, Aggregation := m.ToAggregation s,
           Temporality := Temporality.DeltaTemporality,
           Start := seq.Last, End := seq.Now }]
    ∧ tableGet (statelessSyncInstrument.Collect m p seq output spare).1.data kvs
        = some (m.Reset s)
    ∧ m.HasChange (m.Reset s) = false := by
  refine ⟨?_, ?_, hId s⟩
  · simp only [statelessSyncInstrument.Collect, collectedPoints_append_one,
      statelessSync_loop_points m p.newStorage seq hNew hReset, appendInstrument,
      List.nil_append, pointsOf, List.filter_map, List.filter_filter]
    have hcomm : p.data.filter (fun e => (decide (e.1 = kvs)) && m.HasChange e.2)
        = (p.data.filter (fun e => decide (e.1 = kvs))).filter (fun e => m.HasChange e.2) := by
      rw [List.filter_filter]
      congr 1
      funext e
      exact Bool.and_comm _ _
    have hfun : ((fun pt : Point K A => decide (pt.Attributes = kvs)) ∘ fun e : K × S =>
          ({ Attributes := e.1, Aggregation := m.ToAggregation e.2,
             Temporality := Temporality.DeltaTemporality,
             Start := seq.Last, End := seq.Now } : Point K A))
        = fun e => decide (e.1 = kvs) := rfl
    simp only [hfun]
    rw [hcomm, filter_key_of_nodup p.data kvs s hnodup hget]
    simp [hchg]
  · simp only [statelessSyncInstrument.Collect, statelessSync_loop_data]
    exact tableGet_filter_reset m p.data kvs s hget hchg

/-- C4 at the scenario of the spec: a table whose series 1 holds 7 (the live
value after `Update(3)`, `Update(4)`) besides an idle series 2; the point of
series 1 carries 7 with window `[10, 20]` and its storage is left at 0. -/
theorem statelessSync_collect_changed_series_witness :
    pointsOf (1 : Nat) (collectedPoints []
        (statelessSyncInstrument.Collect intSum
          { desc := counterDesc, newStorage := 0, data := [(2, 0), (1, 7)] }
          ⟨0, 10, 20⟩ [] [some 5]).2)
      = [{ Attributes := 1, Aggregation := 7, Temporality := Temporality.DeltaTemporality,
           Start := 10, End := 20 }]
    ∧ tableGet (statelessSyncInstrument.Collect intSum
          { desc := counterDesc, newStorage := 0, data := [((2 : Nat), 0), (1, 7)] }
          ⟨0, 10, 20⟩ ([] : List (Instrument Nat Int)) [some 5]).1.data 1 = some 0
    ∧ intSum.HasChange 0 = false :=
  statelessSync_collect_changed_series intSum
    { desc := counterDesc, newStorage := 0, data := [(2, 0), (1, 7)] }
    ⟨0, 10, 20⟩ [] [some 5] 1 7
    (by intro x; simp [intSum]) (by intro e x; simp [intSum]) (by intro x; simp [intSum])
    (by decide) (by decide) (by decide)

/-- C5: for every series table, the series of the points emitted by
`statelessSyncInstrument.Collect` are exactly the series whose storage has a
change, and the keys of the table after `Collect` are exactly those series:
a series without change gets no point and is removed. -/
theorem statelessSync_collect_prunes {N S A K : Type} (m : Methods N S A)
    (p : instrumentBase K S) (seq : Sequence) (output : List (Instrument K A))
    (spare : List (Option S)) :
    (collectedPoints output (statelessSyncInstrument.Collect m p seq output spare).2).map
        (fun pt => pt.Attributes)
      = (p.data.filter (fun e => m.HasChange e.2)).map (fun e => e.1)
    ∧ (statelessSyncInstrument.Collect m p seq output spare).1.data.map (fun e => e.1)
      = (collectedPoints output (statelessSyncInstrument.Collect m p seq output spare).2).map
        (fun pt => pt.Attributes) := by
  simp [statelessSyncInstrument.Collect, collectedPoints_append_one,
    statelessSync_loop_attributes, statelessSync_loop_data,
    appendInstrument, Function.comp_def]

/-- C6: for every series table, `statefulSyncInstrument.Collect` leaves the
instrument (its table and every storage in it) as it was and emits, in table
order, one point per entry with the entry's attribute set, the aggregation of
its storage, cumulative temporality and window `[seq.Start, seq.Now]`. -/
theorem statefulSync_collect_frame {N S A K : Type} (m : Methods N S A)
    (p : instrumentBase K S) (seq : Sequence) (output : List (Instrument K A)) :
    (statefulSyncInstrument.Collect m p seq output).1 = p
    ∧ collectedPoints output (statefulSyncInstrument.Collect m p seq output).2
      = p.data.map (fun e =>
          { Attributes := e.1, Aggregation := m.ToAggregation e.2,
            Temporality := Temporality.CumulativeTemporality,
            Start := seq.Start, End := seq.Now }) := by
  simp [statefulSyncInstrument.Collect, collectedPoints_append_one,
    statefulSync_loop_eq, appendInstrument]

/-! ### Asynchronous collectors -/

/-- C7: for every series table, `statelessAsyncInstrument.Collect` emits one
cumulative point with window `[seq.Start, seq.Now]` per entry and leaves the
table empty; a second `Collect` right after it emits no point at all. -/
theorem statelessAsync_collect_resets {N S A K : Type} (m : Methods N S A)
    (p : instrumentBase K S) (seq seq2 : Sequence) (output : List (Instrument K A)) :
    collectedPoints output (statelessAsyncInstrument.Collect m p seq output).2
      = p.data.map (fun e =>
          { Attributes := e.1, Aggregation := m.ToAggregation e.2,
            Temporality := Temporality.CumulativeTemporality,
            Start := seq.Start, End := seq.Now })
    ∧ (statelessAsyncInstrument.Collect m p seq output).1.data = []
    ∧ collectedPoints (statelessAsyncInstrument.Collect m p seq output).2
        (statelessAsyncInstrument.Collect m
          (statelessAsyncInstrument.Collect m p seq output).1 seq2
          (statelessAsyncInstrument.Collect m p seq output).2).2 = [] := by
  refine ⟨?_, rfl, ?_⟩
  · simp [statelessAsyncInstrument.Collect, collectedPoints_append_one,
      statelessAsync_loop_eq, appendInstrument]
  · simp only [statelessAsyncInstrument.Collect, collectedPoints_append_one]
    simp [statelessAsyncInstrument.loop, appendInstrument]

theorem tableGet_tableSet_ne {K S : Type} [DecidableEq K] (t : List (K × S)) (k0 k : K) (v : S)
    (hne : k0 ≠ k) : tableGet (tableSet t k0 v) k = tableGet t k := by
  induction t with
  | nil => rfl
  | cons e rest ih =>
    obtain ⟨k1, s1⟩ := e
    by_cases h1 : k1 = k0
    · subst h1
      simp [tableSet, tableGet, hne]
    · by_cases h2 : k1 = k
      · subst h2
        simp [tableSet, tableGet, h1]
      · simp [tableSet, tableGet, h1, h2, ih]

theorem pointsOf_appendPoint_self {K A : Type} [DecidableEq K] (ioutput : Instrument K A)
    (k : K) (agg : A) (tempo : Temporality) (start endTime : Nat) :
    pointsOf k (appendPoint ioutput k agg tempo start endTime).Points
      = pointsOf k ioutput.Points ++
        [{ Attributes := k, Aggregation := agg, Temporality := tempo,
           Start := start, End := endTime }] := by
  simp [pointsOf, appendPoint, List.filter_append]

theorem pointsOf_appendPoint_ne {K A : Type} [DecidableEq K] (ioutput : Instrument K A)
    (k0 k : K) (agg : A) (tempo : Temporality) (start endTime : Nat) (hne : k0 ≠ k) :
    pointsOf k (appendPoint ioutput k0 agg tempo start endTime).Points
      = pointsOf k ioutput.Points := by
  simp [pointsOf, appendPoint, List.filter_append, hne]

/-- The delta loop over entries of other series leaves the points of `k` alone. -/
theorem statefulAsync_loop_frame {N S A K : Type} [DecidableEq K]
    (m : Methods N S A) (desc : Descriptor) (seq : Sequence) (k : K)
    (l : List (K × S)) (hk : k ∉ l.map (fun e => e.1))
    (prior : List (K × S)) (ioutput : Instrument K A) :
    pointsOf k (statefulAsyncInstrument.loop m desc seq l prior ioutput).2.Points
      = pointsOf k ioutput.Points := by
  induction l generalizing prior ioutput with
  | nil => rfl
  | cons e rest ih =>
    obtain ⟨k0, s0⟩ := e
    simp only [List.map_cons, List.mem_cons, not_or] at hk
    have hne : k0 ≠ k := fun h => hk.1 h.symm
    rw [statefulAsyncInstrument.loop]
    cases hp : tableGet prior k0 with
    | none =>
      simp only []
      rw [ih hk.2, pointsOf_appendPoint_ne _ _ _ _ _ _ _ hne]
    | some v0 =>
      simp only []
      cases hc : m.HasChange (m.SubtractSwap s0 v0)
      · simp [ih hk.2]
      · simp [ih hk.2, pointsOf_appendPoint_ne _ _ _ _ _ _ _ hne]

/-- The points the delta loop emits for the series `k`, which holds `v2` in a
current table with distinct keys, given what the prior table holds for `k`. -/
theorem statefulAsync_loop_series {N S A K : Type} [DecidableEq K]
    (m : Methods N S A) (desc : Descriptor) (seq : Sequence) (k : K) (v2 : S)
    (l : List (K × S)) (hnodup : (l.map (fun e => e.1)).Nodup)
    (hget : tableGet l k = some v2)
    (prior : List (K × S)) (ioutput : Instrument K A) :
    pointsOf k (statefulAsyncInstrument.loop m desc seq l prior ioutput).2.Points
      = pointsOf k ioutput.Points ++
        (match tableGet prior k with
         | some v1 =>
           if m.HasChange (m.SubtractSwap v2 v1) then
             [{ Attributes := k,
                Aggregation := m.ToAggregation
                  (if desc.Kind.HasTemporality then m.SubtractSwap v2 v1 else v2),
                Temporality := Temporality.DeltaTemporality,
                Start := seq.Last, End := seq.Now }]
           else []
         | none =>
           [{ Attributes := k, Aggregation := m.ToAggregation v2,
              Temporality := Temporality.DeltaTemporality,
              Start := seq.Last, End := seq.Now }]) := by
  induction l generalizing prior ioutput with
  | nil => simp [tableGet] at hget
  | cons e rest ih =>
    obtain ⟨k0, s0⟩ := e
    simp only [List.map_cons, List.nodup_cons] at hnodup
    by_cases hk : k0 = k
    · subst hk
      simp only [tableGet, if_true, Option.some.injEq] at hget
      subst hget
      rw [statefulAsyncInstrument.loop]
      cases hp : tableGet prior k0 with
      | none =>
        simp only []
        rw [statefulAsync_loop_frame m desc seq k0 rest hnodup.1,
          pointsOf_appendPoint_self]
      | some v1 =>
        simp only []
        cases hc : m.HasChange (m.SubtractSwap s0 v1)
        · simp [statefulAsync_loop_frame m desc seq k0 rest hnodup.1]
        · simp [statefulAsync_loop_frame m desc seq k0 rest hnodup.1,
            pointsOf_appendPoint_self]
    · simp only [tableGet, if_neg hk] at hget
      rw [statefulAsyncInstrument.loop]
      cases hp : tableGet prior k0 with
      | none =>
        simp only []
        rw [ih hnodup.2 hget, pointsOf_appendPoint_ne _ _ _ _ _ _ _ hk]
      | some v0 =>
        simp only []
        cases hc : m.HasChange (m.SubtractSwap s0 v0)
        · simp [ih hnodup.2 hget, tableGet_tableSet_ne _ _ _ _ hk]
        · simp [ih hnodup.2 hget, tableGet_tableSet_ne _ _ _ _ hk,
            pointsOf_appendPoint_ne _ _ _ _ _ _ _ hk]

/-- C8: under the integer sum algebra and a kind with temporality, for every
current table with distinct keys that holds the reading `v2` for the series `k`
and every prior table that holds `v1` for it, `statefulAsyncInstrument.Collect`
emits for `k` no point when `v2 = v1`, and otherwise exactly one point, of
value `v2 - v1`, delta temporality and window `[seq.Last, seq.Now]`. -/
theorem statefulAsync_collect_delta {K : Type} [DecidableEq K]
    (p : statefulAsyncInstrument K Int) (seq : Sequence)
    (output : List (Instrument K Int)) (k : K) (v1 v2 : Int)
    (htemp : p.base.desc.Kind.HasTemporality = true)
    (hnodup : (p.base.data.map (fun e => e.1)).Nodup)
    (hcur : tableGet p.base.data k = some v2) (hprior : tableGet p.prior k = some v1) :
    pointsOf k (collectedPoints output (statefulAsyncInstrument.Collect intSum p seq output).2)
      = if v2 = v1 then []
        else [{ Attributes := k, Aggregation := v2 - v1,
                Temporality := Temporality.DeltaTemporality,
                Start := seq.Last, End := seq.Now }] := by
  simp only [statefulAsyncInstrument.Collect, collectedPoints_append_one]
  rw [statefulAsync_loop_series intSum p.base.desc seq k v2 p.base.data hnodup hcur,
    hprior]
  by_cases h : v2 = v1
  · subst h
    simp [intSum, appendInstrument, pointsOf]
  · have h0 : v2 - v1 ≠ 0 := fun h0 => h (sub_eq_zero.mp h0)
    simp [intSum, appendInstrument, pointsOf, h, h0, htemp]

/-- C8 on a counter observer: series 1 read 7 and then 12, series 2 read 5
twice; the point of series 1 carries 5 and series 2 has no point. -/
theorem statefulAsync_collect_delta_witness :
    pointsOf (1 : Nat) (collectedPoints []
        (statefulAsyncInstrument.Collect intSum
          { base := { desc := counterDesc, newStorage := 0, data := [(1, 12), (2, 5)] },
            prior := [(2, 5), (1, 7)] } ⟨0, 10, 20⟩ []).2)
      = [{ Attributes := 1, Aggregation := 5, Temporality := Temporality.DeltaTemporality,
           Start := 10, End := 20 }]
    ∧ pointsOf (2 : Nat) (collectedPoints []
        (statefulAsyncInstrument.Collect intSum
          { base := { desc := counterDesc, newStorage := 0, data := [(1, 12), (2, 5)] },
            prior := [(2, 5), (1, 7)] } ⟨0, 10, 20⟩ []).2)
      = [] :=
  ⟨(statefulAsync_collect_delta
      { base := { desc := counterDesc, newStorage := 0, data := [(1, 12), (2, 5)] },
        prior := [(2, 5), (1, 7)] } ⟨0, 10, 20⟩ [] 1 7 12
      (by decide) (by decide) (by decide) (by decide)).trans (by decide),
   (statefulAsync_collect_delta
      { base := { desc := counterDesc, newStorage := 0, data := [(1, 12), (2, 5)] },
        prior := [(2, 5), (1, 7)] } ⟨0, 10, 20⟩ [] 2 5 5
      (by decide) (by decide) (by decide) (by decide)).trans (by decide)⟩

/-- C9: for a kind without temporality, a current table with distinct keys that
holds `v2` for the series `k` and a prior table that holds `v1` for it:
when the result of `SubtractSwap` has a change, `statefulAsyncInstrument.Collect`
emits for `k` exactly one point, carrying the aggregation of the current storage
`v2` itself with delta temporality and window `[seq.Last, seq.Now]`; when
`v2 = v1` it emits no point for `k`.  The algebra is assumed to give a storage
without change when a storage is subtracted from itself. -/
theorem statefulAsync_collect_gauge {N S A K : Type} [DecidableEq K] (m : Methods N S A)
    (p : statefulAsyncInstrument K S) (seq : Sequence)
    (output : List (Instrument K A)) (k : K) (v1 v2 : S)
    (hself : ∀ x, m.HasChange (m.SubtractSwap x x) = false)
    (htemp : p.base.desc.Kind.HasTemporality = false)
    (hnodup : (p.base.data.map (fun e => e.1)).Nodup)
    (hcur : tableGet p.base.data k = some v2) (hprior : tableGet p.prior k = some v1) :
    (m.HasChange (m.SubtractSwap v2 v1) = true →
      pointsOf k (collectedPoints output (statefulAsyncInstrument.Collect m p seq output).2)
        = [{ Attributes := k, Aggregation := m.ToAggregation v2,
             Temporality := Temporality.DeltaTemporality,
             Start := seq.Last, End := seq.Now }])
    ∧ (v2 = v1 →
      pointsOf k (collectedPoints output (statefulAsyncInstrument.Collect m p seq output).2)
        = []) := by
  simp only [statefulAsyncInstrument.Collect, collectedPoints_append_one]
  rw [statefulAsync_loop_series m p.base.desc seq k v2 p.base.data hnodup hcur,
    hprior]
  constructor
  · intro hc
    simp [appendInstrument, pointsOf, hc, htemp]
  · intro h
    subst h
    simp [appendInstrument, pointsOf, hself]

/-- C9 on a gauge-like kind over integers: series 1 read 7 and then 12, series
2 read 5 twice; the point of series 1 carries 12 and series 2 has no point. -/
theorem statefulAsync_collect_gauge_witness :
    pointsOf (1 : Nat) (collectedPoints []
        (statefulAsyncInstrument.Collect intSum
          { base := { desc := gaugeDesc, newStorage := 0, data := [(1, 12), (2, 5)] },
            prior := [(2, 5), (1, 7)] } ⟨0, 10, 20⟩ []).2)
      = [{ Attributes := 1, Aggregation := 12, Temporality := Temporality.DeltaTemporality,
           Start := 10, End := 20 }]
    ∧ pointsOf (2 : Nat) (collectedPoints []
        (statefulAsyncInstrument.Collect intSum
          { base := { desc := gaugeDesc, newStorage := 0, data := [(1, 12), (2, 5)] },
            prior := [(2, 5), (1, 7)] } ⟨0, 10, 20⟩ []).2)
      = [] :=
  ⟨(statefulAsync_collect_gauge intSum
      { base := { desc := gaugeDesc, newStorage := 0, data := [(1, 12), (2, 5)] },
        prior := [(2, 5), (1, 7)] } ⟨0, 10, 20⟩ [] 1 7 12
      (by intro x; simp [intSum]) (by decide) (by decide) (by decide) (by decide)).1
      (by decide),
   (statefulAsync_collect_gauge intSum
      { base := { desc := gaugeDesc, newStorage := 0, data := [(1, 12), (2, 5)] },
        prior := [(2, 5), (1, 7)] } ⟨0, 10, 20⟩ [] 2 5 5
      (by intro x; simp [intSum]) (by decide) (by decide) (by decide) (by decide)).2 rfl⟩

theorem tableGet_tableSet_self {K S : Type} [DecidableEq K] (t : List (K × S)) (k : K)
    (s v : S) (hget : tableGet t k = some s) : tableGet (tableSet t k v) k = some v := by
  induction t with
  | nil => simp [tableGet] at hget
  | cons e rest ih =>
    obtain ⟨k0, s0⟩ := e
    by_cases hk : k0 = k
    · simp [tableSet, tableGet, hk]
    · simp only [tableGet, if_neg hk] at hget
      simp [tableSet, tableGet, hk, ih hget]

theorem tableGet_append_of_none {K S : Type} [DecidableEq K] (t t2 : List (K × S)) (k : K)
    (hget : tableGet t k = none) : tableGet (t ++ t2) k = tableGet t2 k := by
  induction t with
  | nil => rfl
  | cons e rest ih =>
    obtain ⟨k0, s0⟩ := e
    by_cases hk : k0 = k
    · simp [tableGet, hk] at hget
    · simp only [tableGet, if_neg hk] at hget
      simp [tableGet, hk, ih hget]

/-- The resolver returns the value that the table holds for the series afterwards. -/
theorem storageFinder_get {K S : Type} [DecidableEq K] (p : instrumentBase K S) (kvs : K) :
    tableGet (storageFinder p kvs).1.data kvs = some (storageFinder p kvs).2 := by
  cases h : tableGet p.data kvs with
  | some s => simp [storageFinder, h]
  | none => simp [storageFinder, h, tableGet_append_of_none _ _ _ h, tableGet]

theorem storageFinder_of_get {K S : Type} [DecidableEq K] (p : instrumentBase K S) (kvs : K)
    (s : S) (hget : tableGet p.data kvs = some s) : storageFinder p kvs = (p, s) := by
  simp [storageFinder, hget]

/-- The slot of the series after `asyncAccumulator.SnapshotAndProcess`. -/
theorem asyncSnapshot_slot {N S A K : Type} [DecidableEq K] (m : Methods N S A) (kvs : K)
    (acc : asyncAccumulator N) (p : instrumentBase K S) :
    tableGet (asyncAccumulator.SnapshotAndProcess m kvs acc p).2.data kvs
      = some (m.Update (storageFinder p kvs).2 acc.current) := by
  simp only [asyncAccumulator.SnapshotAndProcess]
  exact tableGet_tableSet_self _ _ _ _ (storageFinder_get p kvs)

theorem asyncUpdates_last {N : Type} (acc : asyncAccumulator N) (values : List N)
    (hne : values ≠ []) :
    asyncAccumulator.Updates acc values = { current := values.getLast hne } := by
  induction values generalizing acc with
  | nil => exact absurd rfl hne
  | cons v rest ih =>
    cases rest with
    | nil => rfl
    | cons v2 rest2 =>
      have h2 := ih (asyncAccumulator.Update acc v) (by simp)
      simp only [asyncAccumulator.Updates, List.foldl_cons] at h2 ⊢
      rw [h2]
      simp

/-- C11: for every non-empty list of `asyncAccumulator.Update` calls, the
accumulator holds the last value only, and the `SnapshotAndProcess` that
follows leaves in the series' shared slot the algebra's `Update` of the
storage `findStorage` returned with that last value. -/
theorem asyncAccumulator_last_write_wins {N S A K : Type} [DecidableEq K]
    (m : Methods N S A) (kvs : K) (acc : asyncAccumulator N) (p : instrumentBase K S)
    (values : List N) (hne : values ≠ []) :
    asyncAccumulator.Updates acc values = { current := values.getLast hne }
    ∧ tableGet (asyncAccumulator.SnapshotAndProcess m kvs
          (asyncAccumulator.Updates acc values) p).2.data kvs
        = some (m.Update (storageFinder p kvs).2 (values.getLast hne)) := by
  refine ⟨asyncUpdates_last acc values hne, ?_⟩
  rw [asyncSnapshot_slot, asyncUpdates_last acc values hne]

/-- C11 on the integer sum algebra: readings 3, 9, 4 in one cycle on a slot
that holds 10 leave 14 in the slot. -/
theorem asyncAccumulator_last_write_wins_witness :
    asyncAccumulator.Updates ({ current := 0 } : asyncAccumulator Int) [3, 9, 4]
      = { current := 4 }
    ∧ tableGet (asyncAccumulator.SnapshotAndProcess intSum (1 : Nat)
          (asyncAccumulator.Updates { current := 0 } [3, 9, 4])
          { desc := counterDesc, newStorage := 0, data := [(2, 6), (1, 10)] }).2.data 1
        = some 14 :=
  asyncAccumulator_last_write_wins intSum 1 { current := 0 }
    { desc := counterDesc, newStorage := 0, data := [(2, 6), (1, 10)] } [3, 9, 4] (by simp)

/-- C13: `syncAccumulator.Update` sets `current` to the algebra's `Update` of
it with the value and leaves `snapshot` and the owning instrument (its series
table, hence every shared storage) as they were; `asyncAccumulator.Update`
sets `current` to the value and leaves the owning instrument as it was. -/
theorem accumulator_update_frame {N S A K : Type} (m : Methods N S A)
    (st : syncAccumulator S × instrumentBase K S)
    (ast : asyncAccumulator N × instrumentBase K S) (v : N) :
    (syncAccumulator.UpdateStep m st v).1
        = { current := m.Update st.1.current v, snapshot := st.1.snapshot }
    ∧ (syncAccumulator.UpdateStep m st v).2 = st.2
    ∧ (asyncAccumulator.UpdateStep ast v).1 = { current := v }
    ∧ (asyncAccumulator.UpdateStep ast v).2 = ast.2 :=
  ⟨rfl, rfl, rfl, rfl⟩

/-- C20: `asyncAccumulator.SnapshotAndProcess` returns the accumulator as it
was, and a second call right after the first applies the algebra's `Update`
with the same value once more to the shared slot; under the integer sum
algebra the slot has then grown by twice the value. -/
theorem asyncSnapshot_not_idempotent {N S A K : Type} [DecidableEq K]
    (m : Methods N S A) (kvs : K) (acc : asyncAccumulator N) (p : instrumentBase K S)
    (iacc : asyncAccumulator Int) (ip : instrumentBase K Int) :
    (asyncAccumulator.SnapshotAndProcess m kvs acc p).1 = acc
    ∧ tableGet (asyncAccumulator.SnapshotAndProcess m kvs
          (asyncAccumulator.SnapshotAndProcess m kvs acc p).1
          (asyncAccumulator.SnapshotAndProcess m kvs acc p).2).2.data kvs
        = some (m.Update (m.Update (storageFinder p kvs).2 acc.current) acc.current)
    ∧ tableGet (asyncAccumulator.SnapshotAndProcess intSum kvs
          (asyncAccumulator.SnapshotAndProcess intSum kvs iacc ip).1
          (asyncAccumulator.SnapshotAndProcess intSum kvs iacc ip).2).2.data kvs
        = some ((storageFinder ip kvs).2 + 2 * iacc.current) := by
  have key : ∀ {N1 S1 A1 : Type} (m1 : Methods N1 S1 A1) (a : asyncAccumulator N1)
      (q : instrumentBase K S1),
      tableGet (asyncAccumulator.SnapshotAndProcess m1 kvs
          (asyncAccumulator.SnapshotAndProcess m1 kvs a q).1
          (asyncAccumulator.SnapshotAndProcess m1 kvs a q).2).2.data kvs
        = some (m1.Update (m1.Update (storageFinder q kvs).2 a.current) a.current) := by
    intro N1 S1 A1 m1 a q
    rw [asyncSnapshot_slot,
      storageFinder_of_get _ kvs _ (asyncSnapshot_slot m1 kvs a q)]
    rfl
  refine ⟨rfl, key m acc p, ?_⟩
  rw [key intSum iacc ip]
  simp only [intSum, Option.some.injEq]
  ring

/-! ### The record appended by `Collect` -/

theorem statelessSync_loop_descriptor {N S A K : Type} (m : Methods N S A) (newStorage : S)
    (seq : Sequence) (l : List (K × S)) (ioutput : Instrument K A) (spare : List (Option S)) :
    (statelessSyncInstrument.loop m newStorage seq l ioutput spare).2.Descriptor
      = ioutput.Descriptor := by
  induction l generalizing ioutput spare with
  | nil => rfl
  | cons e rest ih =>
    obtain ⟨set, storage⟩ := e
    cases h : m.HasChange storage <;> simp [statelessSyncInstrument.loop, h, ih, appendPoint]

theorem statefulAsync_loop_descriptor {N S A K : Type} [DecidableEq K] (m : Methods N S A)
    (desc : Descriptor) (seq : Sequence) (l prior : List (K × S)) (ioutput : Instrument K A) :
    (statefulAsyncInstrument.loop m desc seq l prior ioutput).2.Descriptor
      = ioutput.Descriptor := by
  induction l generalizing prior ioutput with
  | nil => rfl
  | cons e rest ih =>
    obtain ⟨k0, s0⟩ := e
    rw [statefulAsyncInstrument.loop]
    cases hp : tableGet prior k0 with
    | none =>
      simp only []
      rw [ih]
      rfl
    | some v0 =>
      simp only []
      cases hc : m.HasChange (m.SubtractSwap s0 v0)
      · simp [ih]
      · simp [ih, appendPoint]

/-- The delta loop emits nothing when every entry of a current table with
distinct keys has a prior reading and the subtraction leaves no change. -/
theorem statefulAsync_loop_all_skipped {N S A K : Type} [DecidableEq K] (m : Methods N S A)
    (desc : Descriptor) (seq : Sequence) (l : List (K × S))
    (hnodup : (l.map (fun e => e.1)).Nodup) (prior : List (K × S))
    (hskip : ∀ e ∈ l, ∃ v1, tableGet prior e.1 = some v1
      ∧ m.HasChange (m.SubtractSwap e.2 v1) = false)
    (ioutput : Instrument K A) :
    (statefulAsyncInstrument.loop m desc seq l prior ioutput).2 = ioutput := by
  induction l generalizing prior with
  | nil => rfl
  | cons e rest ih =>
    obtain ⟨k0, s0⟩ := e
    simp only [List.map_cons, List.nodup_cons] at hnodup
    obtain ⟨v1, hv1, hc⟩ := hskip (k0, s0) (List.mem_cons_self _ _)
    rw [statefulAsyncInstrument.loop]
    simp only [hv1, hc]
    apply ih hnodup.2
    intro e he
    obtain ⟨w, hw, hcw⟩ := hskip e (List.mem_cons_of_mem _ he)
    have hne : k0 ≠ e.1 := fun h =>
      hnodup.1 (h ▸ List.mem_map_of_mem (fun e => e.1) he)
    exact ⟨w, by rw [tableGet_tableSet_ne _ _ _ _ hne]; exact hw, hcw⟩

theorem statelessSync_loop_all_skipped {N S A K : Type} (m : Methods N S A) (newStorage : S)
    (seq : Sequence) (l : List (K × S)) (hskip : ∀ e ∈ l, m.HasChange e.2 = false)
    (ioutput : Instrument K A) (spare : List (Option S)) :
    (statelessSyncInstrument.loop m newStorage seq l ioutput spare).2 = ioutput := by
  induction l with
  | nil => rfl
  | cons e rest ih =>
    obtain ⟨set, storage⟩ := e
    have h0 := hskip (set, storage) (List.mem_cons_self _ _)
    simp only at h0
    simp only [statelessSyncInstrument.loop, h0]
    exact ih (fun e he => hskip e (List.mem_cons_of_mem _ he))

/-- C12: every `Collect` variant returns the output buffer it was given with
exactly one record appended, carrying the instrument's descriptor and the
points of the call; the records already in the buffer are kept.  On an empty
series table the record has no points, and likewise when every series is
skipped: by the delta synchronous collector when no storage has a change, by
the delta asynchronous collector when every series (of a table with distinct
keys) has a prior reading and the subtraction leaves no change. -/
theorem collect_appends_one_record {N S A K : Type} [DecidableEq K] (m : Methods N S A)
    (p : instrumentBase K S) (ap : statefulAsyncInstrument K S) (seq : Sequence)
    (output : List (Instrument K A)) (spare : List (Option S)) :
    ((statefulSyncInstrument.Collect m p seq output).2 = output ++
        [{ Descriptor := p.desc,
           Points := collectedPoints output (statefulSyncInstrument.Collect m p seq output).2 }]
      ∧ (statelessSyncInstrument.Collect m p seq output spare).2 = output ++
        [{ Descriptor := p.desc,
           Points := collectedPoints output
             (statelessSyncInstrument.Collect m p seq output spare).2 }]
      ∧ (statelessAsyncInstrument.Collect m p seq output).2 = output ++
        [{ Descriptor := p.desc,
           Points := collectedPoints output (statelessAsyncInstrument.Collect m p seq output).2 }]
      ∧ (statefulAsyncInstrument.Collect m ap seq output).2 = output ++
        [{ Descriptor := ap.base.desc,
           Points := collectedPoints output
             (statefulAsyncInstrument.Collect m ap seq output).2 }])
    ∧ ((statefulSyncInstrument.Collect m { p with data := [] } seq output).2
        = output ++ [{ Descriptor := p.desc, Points := [] }]
      ∧ (statelessSyncInstrument.Collect m { p with data := [] } seq output spare).2
        = output ++ [{ Descriptor := p.desc, Points := [] }]
      ∧ (statelessAsyncInstrument.Collect m { p with data := [] } seq output).2
        = output ++ [{ Descriptor := p.desc, Points := [] }]
      ∧ (statefulAsyncInstrument.Collect m
          { ap with base := { ap.base with data := [] } } seq output).2
        = output ++ [{ Descriptor := ap.base.desc, Points := [] }])
    ∧ ((∀ e ∈ p.data, m.HasChange e.2 = false) →
        (statelessSyncInstrument.Collect m p seq output spare).2
          = output ++ [{ Descriptor := p.desc, Points := [] }])
    ∧ ((ap.base.data.map (fun e => e.1)).Nodup →
        (∀ e ∈ ap.base.data, ∃ v1, tableGet ap.prior e.1 = some v1
          ∧ m.HasChange (m.SubtractSwap e.2 v1) = false) →
        (statefulAsyncInstrument.Collect m ap seq output).2
          = output ++ [{ Descriptor := ap.base.desc, Points := [] }]) := by
  refine ⟨⟨?_, ?_, ?_, ?_⟩, ⟨rfl, rfl, rfl, rfl⟩, ?_, ?_⟩
  · simp [statefulSyncInstrument.Collect, collectedPoints_append_one,
      statefulSync_loop_eq, appendInstrument]
  · simp only [statelessSyncInstrument.Collect, collectedPoints_append_one]
    congr 2
    have hd := statelessSync_loop_descriptor m p.newStorage seq p.data
      (appendInstrument p.desc) spare
    generalize (statelessSyncInstrument.loop m p.newStorage seq p.data
      (appendInstrument p.desc) spare).2 = r at hd ⊢
    cases r
    simp only [appendInstrument] at hd
    simp [hd]
  · simp [statelessAsyncInstrument.Collect, collectedPoints_append_one,
      statelessAsync_loop_eq, appendInstrument]
  · simp only [statefulAsyncInstrument.Collect, collectedPoints_append_one]
    congr 2
    have hd := statefulAsync_loop_descriptor m ap.base.desc seq ap.base.data ap.prior
      (appendInstrument ap.base.desc)
    generalize (statefulAsyncInstrument.loop m ap.base.desc seq ap.base.data ap.prior
      (appendInstrument ap.base.desc)).2 = r at hd ⊢
    cases r
    simp only [appendInstrument] at hd
    simp [hd]
  · intro hskip
    simp only [statelessSyncInstrument.Collect]
    rw [statelessSync_loop_all_skipped m p.newStorage seq p.data hskip]
    rfl
  · intro hnodup hskip
    simp only [statefulAsyncInstrument.Collect]
    rw [statefulAsync_loop_all_skipped m ap.base.desc seq ap.base.data hnodup ap.prior hskip]
    rfl

/-! ### The fan-out accumulator -/

theorem multiUpdate_of_all {N St : Type} (acc : List (Accumulator N St)) (v : N)
    (hall : ∀ c ∈ acc, c.updater ≠ none) :
    ∃ r, multiAccumulator.Update acc v = some r
      ∧ List.Forall₂ (fun c c1 => c.Update v = some c1) acc r := by
  induction acc with
  | nil => exact ⟨[], rfl, List.Forall₂.nil⟩
  | cons c rest ih =>
    obtain ⟨r, hr, hf⟩ := ih (fun c1 h1 => hall c1 (List.mem_cons_of_mem _ h1))
    have hc := hall c (List.mem_cons_self _ _)
    cases hu : c.updater with
    | none => exact absurd hu hc
    | some upd =>
      have hcu : c.Update v = some { c with state := upd c.state v } := by
        simp [Accumulator.Update, hu]
      exact ⟨_ :: r, by simp [multiAccumulator.Update, hcu, hr], List.Forall₂.cons hcu hf⟩

theorem multiSnapshot_eq_map {N St : Type} (acc : List (Accumulator N St)) :
    multiAccumulator.SnapshotAndProcess acc = acc.map Accumulator.SnapshotAndProcess := by
  induction acc with
  | nil => rfl
  | cons c rest ih => simp [multiAccumulator.SnapshotAndProcess, ih]

/-- C14: for every list of children that all support `Update` and every value,
`multiAccumulator.Update` returns normally and its result lists, child by
child and in order, the result of `Update` on that child alone; and
`multiAccumulator.SnapshotAndProcess` lists, child by child and in order, the
result of `SnapshotAndProcess` on that child alone. -/
theorem multiAccumulator_forwards {N St : Type} (acc : List (Accumulator N St)) (v : N)
    (hall : ∀ c ∈ acc, c.updater ≠ none) :
    (∃ r, multiAccumulator.Update acc v = some r
      ∧ List.Forall₂ (fun c c1 => c.Update v = some c1) acc r)
    ∧ multiAccumulator.SnapshotAndProcess acc = acc.map Accumulator.SnapshotAndProcess :=
  ⟨multiUpdate_of_all acc v hall, multiSnapshot_eq_map acc⟩

/-- C14 on two views of one counter, each a synchronous accumulator on the
integer sum algebra with its own instrument: `Update(5)` reaches both. -/
theorem multiAccumulator_forwards_witness :
    ((∃ r, multiAccumulator.Update
          [syncAccumulator.toAccumulator intSum (1 : Nat)
             ({ current := 0, snapshot := 0 },
              { desc := counterDesc, newStorage := 0, data := [] }),
           syncAccumulator.toAccumulator intSum (1 : Nat)
             ({ current := 7, snapshot := 0 },
              { desc := gaugeDesc, newStorage := 0, data := [] })] 5 = some r
        ∧ List.Forall₂ (fun c c1 => c.Update 5 = some c1)
          [syncAccumulator.toAccumulator intSum (1 : Nat)
             ({ current := 0, snapshot := 0 },
              { desc := counterDesc, newStorage := 0, data := [] }),
           syncAccumulator.toAccumulator intSum (1 : Nat)
             ({ current := 7, snapshot := 0 },
              { desc := gaugeDesc, newStorage := 0, data := [] })] r)
      ∧ multiAccumulator.SnapshotAndProcess
          [syncAccumulator.toAccumulator intSum (1 : Nat)
             ({ current := 0, snapshot := 0 },
              { desc := counterDesc, newStorage := 0, data := [] }),
           syncAccumulator.toAccumulator intSum (1 : Nat)
             ({ current := 7, snapshot := 0 },
              { desc := gaugeDesc, newStorage := 0, data := [] })]
        = [syncAccumulator.toAccumulator intSum (1 : Nat)
             ({ current := 0, snapshot := 0 },
              { desc := counterDesc, newStorage := 0, data := [] }),
           syncAccumulator.toAccumulator intSum (1 : Nat)
             ({ current := 7, snapshot := 0 },
              { desc := gaugeDesc, newStorage := 0, data := [] })].map
            Accumulator.SnapshotAndProcess)
    ∧ (multiAccumulator.Update
          [syncAccumulator.toAccumulator intSum (1 : Nat)
             ({ current := 0, snapshot := 0 },
              { desc := counterDesc, newStorage := 0, data := [] }),
           syncAccumulator.toAccumulator intSum (1 : Nat)
             ({ current := 7, snapshot := 0 },
              { desc := gaugeDesc, newStorage := 0, data := [] })] 5).map
        (fun r => r.map (fun c => c.state.1.current)) = some [5, 12] :=
  ⟨multiAccumulator_forwards _ 5 (by
      intro c hc
      simp only [List.mem_cons, List.mem_singleton, List.not_mem_nil, or_false] at hc
      rcases hc with rfl | rfl <;> simp [syncAccumulator.toAccumulator]),
   by decide⟩

/-- C15: `multiAccumulator.Update` fails exactly when some child has no
`Update`; when it returns normally every child supports `Update` and the
result has one updated child per child, none skipped. -/
theorem multiAccumulator_update_fails_iff {N St : Type} (acc : List (Accumulator N St))
    (v : N) :
    (multiAccumulator.Update acc v = none ↔ ∃ c ∈ acc, c.updater = none)
    ∧ (∀ r, multiAccumulator.Update acc v = some r →
        (∀ c ∈ acc, c.updater ≠ none)
        ∧ List.Forall₂ (fun c c1 => c.Update v = some c1) acc r) := by
  have hiff : multiAccumulator.Update acc v = none ↔ ∃ c ∈ acc, c.updater = none := by
    constructor
    · intro hnone
      by_contra hex
      have hall : ∀ c ∈ acc, c.updater ≠ none := fun c hc hu => hex ⟨c, hc, hu⟩
      obtain ⟨r, hr, _⟩ := multiUpdate_of_all acc v hall
      rw [hr] at hnone
      exact Option.noConfusion hnone
    · rintro ⟨c, hc, hu⟩
      induction acc with
      | nil => simp at hc
      | cons c0 rest ih =>
        rcases List.mem_cons.mp hc with h0 | h0
        · subst h0
          simp [multiAccumulator.Update, Accumulator.Update, hu]
        · have hrest := ih h0
          cases h1 : c0.Update v <;> simp [multiAccumulator.Update, h1, hrest]
  refine ⟨hiff, ?_⟩
  intro r hr
  have hall : ∀ c ∈ acc, c.updater ≠ none := by
    intro c hc hu
    have hnone := hiff.mpr ⟨c, hc, hu⟩
    rw [hr] at hnone
    exact Option.noConfusion hnone
  obtain ⟨r1, hr1, hf⟩ := multiUpdate_of_all acc v hall
  rw [hr] at hr1
  cases hr1
  exact ⟨hall, hf⟩

/-! ### Reuse of point storage -/

theorem statelessSync_loop_reuse {N S A K : Type} (m : Methods N S A) (newStorage : S)
    (seq : Sequence)
    (hReset : ∀ e x, m.ToAggregation (m.Merge (m.Reset e) x)
      = m.ToAggregation (m.Merge newStorage x))
    (l : List (K × S)) (ioutput : Instrument K A) (spare : List (Option S)) :
    statelessSyncInstrument.loop m newStorage seq l ioutput spare
      = statelessSyncInstrument.loop m newStorage seq l ioutput [] := by
  induction l generalizing ioutput spare with
  | nil => rfl
  | cons e rest ih =>
    obtain ⟨set, storage⟩ := e
    cases h : m.HasChange storage
    · simp only [statelessSyncInstrument.loop, h]
      exact ih ioutput spare
    · cases spare with
      | nil => rfl
      | cons slot more =>
        cases slot with
        | none =>
          simp only [statelessSyncInstrument.loop, h, appendOrReusePoint]
          rw [ih _ more]
          rfl
        | some e0 =>
          simp only [statelessSyncInstrument.loop, h, appendOrReusePoint, hReset]
          rw [ih _ more]
          rfl

/-- C17: for every series table and every content of the spare capacity of
the output record, `statelessSyncInstrument.Collect` returns the same instrument
and the same output (hence the same points) as when no storage is handed back
for reuse and every point gets a fresh one.  The algebra is assumed to make a
reset storage behave as a fresh one under `Merge`. -/
theorem statelessSync_reuse_unobservable {N S A K : Type} (m : Methods N S A)
    (p : instrumentBase K S) (seq : Sequence) (output : List (Instrument K A))
    (spare : List (Option S))
    (hReset : ∀ e x, m.ToAggregation (m.Merge (m.Reset e) x)
      = m.ToAggregation (m.Merge p.newStorage x)) :
    statelessSyncInstrument.Collect m p seq output spare
      = statelessSyncInstrument.Collect m p seq output [] := by
  simp only [statelessSyncInstrument.Collect]
  rw [statelessSync_loop_reuse m p.newStorage seq hReset]

/-- C17 on the integer sum algebra: stale storages 99 and 41 in the spare
capacity do not show in the two points emitted. -/
theorem statelessSync_reuse_unobservable_witness :
    statelessSyncInstrument.Collect intSum
        { desc := counterDesc, newStorage := 0, data := [((1 : Nat), 7), (2, 0), (3, 5)] }
        ⟨0, 10, 20⟩ [] [some 99, some 41]
      = statelessSyncInstrument.Collect intSum
        { desc := counterDesc, newStorage := 0, data := [((1 : Nat), 7), (2, 0), (3, 5)] }
        ⟨0, 10, 20⟩ [] [] :=
  statelessSync_reuse_unobservable intSum
    { desc := counterDesc, newStorage := 0, data := [(1, 7), (2, 0), (3, 5)] }
    ⟨0, 10, 20⟩ [] [some 99, some 41] (by intro e x; simp [intSum])

/-! ### Cycles of the delta asynchronous collector -/

theorem storageFinder_base {K S : Type} [DecidableEq K] (p : instrumentBase K S) (kvs : K) :
    (storageFinder p kvs).1.desc = p.desc
    ∧ (storageFinder p kvs).1.newStorage = p.newStorage := by
  cases h : tableGet p.data kvs <;> simp [storageFinder, h]

/-- Every cycle leaves the current table empty and keeps the descriptor and
the allocator. -/
theorem statefulAsyncRound_base {N S A K : Type} [DecidableEq K] (m : Methods N S A) (kvs : K)
    (st : asyncAccumulator N × statefulAsyncInstrument K S) (r : AsyncRound N) :
    (statefulAsyncRound m kvs st r).1.2.base = { st.2.base with data := [] } := by
  obtain ⟨seq, reading⟩ := r
  cases reading with
  | none => rfl
  | some v =>
    simp [statefulAsyncRound, statefulAsyncInstrument.Collect,
      asyncAccumulator.SnapshotAndProcess, storageFinder_base]

/-- A cycle without a reading on an empty current table: no point, and the
prior table becomes empty. -/
theorem statefulAsyncRound_idle {N S A K : Type} [DecidableEq K] (m : Methods N S A) (kvs : K)
    (st : asyncAccumulator N × statefulAsyncInstrument K S) (seq : Sequence)
    (hdata : st.2.base.data = []) :
    (statefulAsyncRound m kvs st { seq := seq, reading := none }).1.2.prior = []
    ∧ (statefulAsyncRound m kvs st { seq := seq, reading := none }).2
        = ([] : List (Point K A)) := by
  simp [statefulAsyncRound, statefulAsyncInstrument.Collect, hdata,
    statefulAsyncInstrument.loop, collectedPoints, appendInstrument]

/-- A cycle with a reading on empty current and prior tables: the raw reading
is emitted. -/
theorem statefulAsyncRound_first {N S A K : Type} [DecidableEq K] (m : Methods N S A) (kvs : K)
    (st : asyncAccumulator N × statefulAsyncInstrument K S) (seq : Sequence) (v : N)
    (hdata : st.2.base.data = []) (hprior : st.2.prior = []) :
    (statefulAsyncRound m kvs st { seq := seq, reading := some v }).2
      = [{ Attributes := kvs, Aggregation := m.ToAggregation (m.Update st.2.base.newStorage v),
           Temporality := Temporality.DeltaTemporality,
           Start := seq.Last, End := seq.Now }] := by
  simp [statefulAsyncRound, statefulAsyncInstrument.Collect, hdata, hprior,
    asyncAccumulator.SnapshotAndProcess, asyncAccumulator.Update, storageFinder, tableGet,
    tableSet, statefulAsyncInstrument.loop, collectedPoints, appendInstrument, appendPoint]

/-- C19: from any state of a delta asynchronous instrument, let the series be
reported with `v1` in a first cycle, not reported in a second and reported
with `v3` in a third.  The second `Collect` emits nothing and leaves an empty
prior table, and the third emits for the series exactly one point, carrying
the aggregation of the full reading (the algebra's `Update` of a fresh storage
with `v3`); under the integer sum algebra on a new instrument its value is
`v3`, whatever `v1` was. -/
theorem statefulAsync_prior_one_cycle {N S A K : Type} [DecidableEq K] (m : Methods N S A)
    (kvs : K) (st0 : asyncAccumulator N × statefulAsyncInstrument K S)
    (s1 s2 s3 : Sequence) (v1 v3 : N) (desc : Descriptor) (w1 w3 : Int) :
    runRounds (statefulAsyncRound m kvs) (statefulAsyncRound m kvs st0
        { seq := s1, reading := some v1 }).1
        [{ seq := s2, reading := none }, { seq := s3, reading := some v3 }]
      = [[], [{ Attributes := kvs,
                Aggregation := m.ToAggregation (m.Update st0.2.base.newStorage v3),
                Temporality := Temporality.DeltaTemporality,
                Start := s3.Last, End := s3.Now }]]
    ∧ (runRounds (statefulAsyncRound intSum kvs) (newAsyncInstrument desc)
        [{ seq := s1, reading := some w1 }, { seq := s2, reading := none },
         { seq := s3, reading := some w3 }]).map (fun pts => pointValues (pointsOf kvs pts))
      = [[w1], [], [w3]] := by
  have key : ∀ {N1 S1 A1 : Type} (m1 : Methods N1 S1 A1)
      (st : asyncAccumulator N1 × statefulAsyncInstrument K S1) (hdata : st.2.base.data = [])
      (x : N1),
      runRounds (statefulAsyncRound m1 kvs) st
        [{ seq := s2, reading := none }, { seq := s3, reading := some x }]
      = [[], [{ Attributes := kvs,
                Aggregation := m1.ToAggregation (m1.Update st.2.base.newStorage x),
                Temporality := Temporality.DeltaTemporality,
                Start := s3.Last, End := s3.Now }]] := by
    intro N1 S1 A1 m1 st hdata x
    have h2 := statefulAsyncRound_idle (A := A1) m1 kvs st s2 hdata
    have hb := statefulAsyncRound_base m1 kvs st { seq := s2, reading := none }
    have h3 := statefulAsyncRound_first m1 kvs
      (statefulAsyncRound m1 kvs st { seq := s2, reading := none }).1 s3 x
      (by rw [hb]) h2.1
    simp only [runRounds, h2.2, h3, hb]
  constructor
  · have hb := statefulAsyncRound_base m kvs st0 { seq := s1, reading := some v1 }
    rw [key m _ (by rw [hb]), hb]
  · have h1 := statefulAsyncRound_first intSum kvs (newAsyncInstrument desc) s1 w1 rfl rfl
    have hb := statefulAsyncRound_base intSum kvs (newAsyncInstrument desc)
      { seq := s1, reading := some w1 }
    rw [runRounds, key intSum _ (by rw [hb]), h1, hb]
    simp [pointValues, pointsOf, intSum, newAsyncInstrument]

/-- A cycle with a reading under the integer sum algebra and a temporal kind,
on an empty current table: the prior table becomes the reading, and the points
of the series sum to the reading minus the prior reading (0 when there is none). -/
theorem statefulAsyncRound_sum {K : Type} [DecidableEq K] (kvs : K) (desc : Descriptor)
    (htemp : desc.Kind.HasTemporality = true)
    (st : asyncAccumulator Int × statefulAsyncInstrument K Int) (seq : Sequence) (v : Int)
    (hbase : st.2.base = { desc := desc, newStorage := 0, data := [] }) :
    (statefulAsyncRound intSum kvs st { seq := seq, reading := some v }).1.2.prior
        = [(kvs, v)]
    ∧ (pointValues (pointsOf kvs
        (statefulAsyncRound intSum kvs st { seq := seq, reading := some v }).2)).sum
        = v - (tableGet st.2.prior kvs).getD 0 := by
  obtain ⟨acc, p⟩ := st
  obtain ⟨base, prior⟩ := p
  simp only at hbase
  subst hbase
  constructor
  · simp [statefulAsyncRound, statefulAsyncInstrument.Collect,
      asyncAccumulator.SnapshotAndProcess, asyncAccumulator.Update, storageFinder, tableGet,
      tableSet, intSum]
  · cases hp : tableGet prior kvs with
    | none =>
      simp [statefulAsyncRound, statefulAsyncInstrument.Collect,
        asyncAccumulator.SnapshotAndProcess, asyncAccumulator.Update, storageFinder, tableGet,
        tableSet, statefulAsyncInstrument.loop, collectedPoints, appendInstrument, appendPoint,
        pointValues, pointsOf, intSum, hp]
    | some v0 =>
      by_cases hv : v - v0 = 0
      · simp [statefulAsyncRound, statefulAsyncInstrument.Collect,
          asyncAccumulator.SnapshotAndProcess, asyncAccumulator.Update, storageFinder, tableGet,
          tableSet, statefulAsyncInstrument.loop, collectedPoints, appendInstrument,
          appendPoint, pointValues, pointsOf, intSum, hp, hv]
      · simp [statefulAsyncRound, statefulAsyncInstrument.Collect,
          asyncAccumulator.SnapshotAndProcess, asyncAccumulator.Update, storageFinder, tableGet,
          tableSet, statefulAsyncInstrument.loop, collectedPoints, appendInstrument,
          appendPoint, pointValues, pointsOf, intSum, hp, hv, htemp]

/-- The points of the series over a run of cycles sum to the last reading
minus the prior reading the run started from. -/
theorem statefulAsync_run_sum {K : Type} [DecidableEq K] (kvs : K) (desc : Descriptor)
    (htemp : desc.Kind.HasTemporality = true) (rs : List (Sequence × Int))
    (st : asyncAccumulator Int × statefulAsyncInstrument K Int)
    (hbase : st.2.base = { desc := desc, newStorage := 0, data := [] }) :
    (pointValues ((runRounds (statefulAsyncRound intSum kvs) st
        (rs.map (fun r => { seq := r.1, reading := some r.2 }))).flatMap (pointsOf kvs))).sum
      = rs.foldl (fun _ r => r.2) ((tableGet st.2.prior kvs).getD 0)
        - (tableGet st.2.prior kvs).getD 0 := by
  induction rs generalizing st with
  | nil => simp [runRounds, pointValues]
  | cons r rest ih =>
    obtain ⟨seq, v⟩ := r
    have h1 := statefulAsyncRound_sum kvs desc htemp st seq v hbase
    have hb := statefulAsyncRound_base intSum kvs st { seq := seq, reading := some v }
    rw [hbase] at hb
    have h2 := ih _ hb
    rw [h1.1] at h2
    simp only [tableGet, if_true, Option.getD_some] at h2
    simp only [List.map_cons, runRounds, List.flatMap_cons, pointValues, List.map_append,
      List.sum_append, List.foldl_cons] at h2 ⊢
    simp only [pointValues] at h1
    rw [h1.2, h2]
    ring

theorem foldl_last_reading (rs : List (Sequence × Int)) (hne : rs ≠ []) (x : Int) :
    rs.foldl (fun _ r => r.2) x = (rs.getLast hne).2 := by
  induction rs generalizing x with
  | nil => exact absurd rfl hne
  | cons r rest ih =>
    cases rest with
    | nil => rfl
    | cons r2 rest2 =>
      rw [List.foldl_cons, ih (by simp)]
      simp

/-- C18: under the integer sum algebra and a kind with temporality, for every
non-empty sequence of cycles in each of which the series is reported (one
cumulative reading per cycle) on a new instrument, the values of all points
that the `statefulAsyncInstrument.Collect` calls emit for the series sum to the
last reading. -/
theorem statefulAsync_delta_telescopes {K : Type} [DecidableEq K] (kvs : K)
    (desc : Descriptor) (rs : List (Sequence × Int))
    (htemp : desc.Kind.HasTemporality = true) (hne : rs ≠ []) :
    (pointValues ((runRounds (statefulAsyncRound intSum kvs) (newAsyncInstrument desc)
        (rs.map (fun r => { seq := r.1, reading := some r.2 }))).flatMap (pointsOf kvs))).sum
      = (rs.getLast hne).2 := by
  rw [statefulAsync_run_sum kvs desc htemp rs (newAsyncInstrument desc) rfl,
    foldl_last_reading rs hne]
  simp [newAsyncInstrument, tableGet]

/-- C18 on four cycles with readings 5, 5, 8, 6: the points carry 5, 3 and -2. -/
theorem statefulAsync_delta_telescopes_witness :
    (pointValues ((runRounds (statefulAsyncRound intSum (1 : Nat))
        (newAsyncInstrument counterDesc)
        ([(⟨0, 0, 10⟩, 5), (⟨0, 10, 20⟩, 5), (⟨0, 20, 30⟩, 8), (⟨0, 30, 40⟩, 6)].map
          (fun r => { seq := r.1, reading := some r.2 }))).flatMap (pointsOf 1))).sum = 6
    ∧ pointValues ((runRounds (statefulAsyncRound intSum (1 : Nat))
        (newAsyncInstrument counterDesc)
        ([(⟨0, 0, 10⟩, 5), (⟨0, 10, 20⟩, 5), (⟨0, 20, 30⟩, 8), (⟨0, 30, 40⟩, 6)].map
          (fun r => { seq := r.1, reading := some r.2 }))).flatMap (pointsOf 1))
      = [5, 3, -2] :=
  ⟨statefulAsync_delta_telescopes 1 counterDesc
      [(⟨0, 0, 10⟩, 5), (⟨0, 10, 20⟩, 5), (⟨0, 20, 30⟩, 8), (⟨0, 30, 40⟩, 6)]
      (by decide) (by simp),
   by decide⟩

end viewstate
